import Mathlib

/-!
# Verification of the tpd-auto-news drafting pipeline

Shallow embedding of `scripts/auto_news.py` (the main pipeline) and of the
competing variant `.github/workflows/scripts/auto_news.py`, together with
theorems settling the frozen specification claims.

Conventions:
* Python strings are `List Char` (`Str`); `str.split()` / `str.strip()` are
  modelled character-exactly.
* Machine time is `ℚ` (seconds since the Unix epoch, UTC); Python floats are
  modelled as exact rationals.
* External collaborators (the network, `dateutil`, `hashlib`, `trafilatura` /
  `readability` / `BeautifulSoup`, `nltk`, `markdownify`, `yaml`) are fields of
  a `World` record: the run is a pure function of the feed, the configuration,
  the persisted seen-set and the `World`.
-/

namespace AutoNews

/-- Python strings, character by character. -/
abbrev Str := List Char

/-- Coerce a Lean string literal to the character-list representation. -/
def S (s : String) : Str := s.toList

/-- Whitespace test used by Python `str.split()` / `str.strip()`
(restricted to the usual ASCII whitespace). -/
def pySpace (c : Char) : Bool := c.isWhitespace

/-- Helper for `pySplit`: accumulates the current word (reversed). -/
def pySplitAux : Str → Str → List Str
  | [], acc => if acc = [] then [] else [acc.reverse]
  | c :: rest, acc =>
    if pySpace c then
      if acc = [] then pySplitAux rest [] else acc.reverse :: pySplitAux rest []
    else pySplitAux rest (c :: acc)

/-- Python `s.split()`: split on whitespace runs, dropping empty fields. -/
def pySplit (s : Str) : List Str := pySplitAux s []

/-- Whitespace-delimited word count, `len(s.split())`. -/
def wc (s : Str) : ℕ := (pySplit s).length

/-- Python `s.strip()`. -/
def pyStrip (s : Str) : Str :=
  ((s.dropWhile pySpace).reverse.dropWhile pySpace).reverse

/-- Python `s.lstrip(c)` for a single character. -/
def lstripChar (c : Char) (s : Str) : Str := s.dropWhile (· = c)

/-- Python `s.rstrip(c)` for a single character. -/
def rstripChar (c : Char) (s : Str) : Str :=
  (s.reverse.dropWhile (· = c)).reverse

/-- Python `" ".join(l)`. -/
def joinSpace (l : List Str) : Str := (l.intersperse (S " ")).flatten

/-- Python string-prefix test (`s.startswith(p)` is `strStarts p s`). -/
def strStarts : Str → Str → Bool
  | [], _ => true
  | _ :: _, [] => false
  | a :: as, b :: bs => a = b && strStarts as bs

/-- Python truthiness filter for an optional string: `None` and `""` are falsy. -/
def tstr : Option Str → Option Str
  | some s => if s = [] then none else some s
  | none => none

/-- A raw feed-item field value as it arrives from JSON: a string or an integer
(the shapes `as_dt` distinguishes). -/
inductive FieldVal where
  | vstr (s : Str)
  | vint (n : ℤ)
deriving DecidableEq

/-- Decimal digits of a natural number (most significant first). -/
def natRepr (n : ℕ) : Str := Nat.toDigits 10 n

/-- Python `str(...)` on an integer. -/
def intRepr (n : ℤ) : Str :=
  if n < 0 then '-' :: natRepr (-n).toNat else natRepr n.toNat

/-- Python `str(value)` for a raw field value. -/
def fieldStr : FieldVal → Str
  | .vstr s => s
  | .vint n => intRepr n

/-- Python truthiness for an optional raw field value:
`None`, `""` and `0` are falsy. -/
def ftruthy : Option FieldVal → Option FieldVal
  | some (.vstr s) => if s = [] then none else some (.vstr s)
  | some (.vint n) => if n = 0 then none else some (.vint n)
  | none => none

/-- Numeric value of an all-digit string. -/
def digitsToNat (s : Str) : ℕ := s.foldl (fun a c => 10 * a + (c.toNat - 48)) 0

/-- One raw feed item (`items[i]` of the Inoreader JSON), with exactly the
fields `scripts/auto_news.py` reads.  `canonical` / `alternate` are lists of
objects each carrying an optional `href`; `content` / `summary` hold the inner
`content` html of the correspondingly named dict when present. -/
structure Item where
  id : Option Str := none
  originId : Option Str := none
  canonical : List (Option Str) := []
  alternate : List (Option Str) := []
  url : Option Str := none
  title : Option Str := none
  published : Option FieldVal := none
  updated : Option FieldVal := none
  crawled : Option FieldVal := none
  timestampUsec : Option FieldVal := none
  crawlTimeMsec : Option FieldVal := none
  content : Option Str := none
  summary : Option Str := none
  origin : Option Str := none
deriving DecidableEq

/-- The external collaborators of one run (spec §1 excludes them from the
core): the clock, `dateutil.parser.parse`, `hashlib.sha1(...).hexdigest()`,
the network (`requests.get` inside `fetch_html`: `some html` on success,
`none` when any exception is raised — timeout, connection error, or a non-2xx
status via `raise_for_status`), the `trafilatura`/`readability`/`BeautifulSoup`
extraction chain of `extract_content` (title and text it yields on a fetched
page), `BeautifulSoup.get_text` for bundled feed html, NLTK's `sent_tokenize`
(the environment where it works — the in-repo regex fallback raises, see
`sentenceSplitPattern`), `markdownify`, `yaml.safe_dump` and
`datetime.isoformat`. -/
structure World where
  now : ℚ
  dtparse : Str → Option ℚ
  sha1hex : Str → Str
  fetch : Str → Option Str
  extract : Str → Option Str × Str
  stripHtml : Str → Str
  sentTokenize : Str → List Str
  mdify : Str → Str
  yamlDump : List (Str × Str) → Str
  isoFormat : ℚ → Str

/-- `as_dt` (lines 109–148): parse a raw timestamp shape to an instant.
The two regex branches (`\d{15,19}` micro/milli, `\d{9,12}` seconds) are
modelled on `str(value)` exactly as in the source; the remaining ISO-ish case
delegates to the external `dateutil` parser (tz-naive results being given UTC
is folded into `World.dtparse`).  `datetime.fromtimestamp` range errors are
not modelled. -/
def as_dt (w : World) : Option FieldVal → Option ℚ
  | none => none
  | some v =>
    let sval := fieldStr v
    if sval.all Char.isDigit ∧ 15 ≤ sval.length ∧ sval.length ≤ 19 then
      let iv : ℤ := (digitsToNat sval : ℤ)
      if iv > 1000000000000 then some (Rat.ofInt iv / 1000000)
      else some (Rat.ofInt iv / 1000)
    else if sval.all Char.isDigit ∧ 9 ≤ sval.length ∧ sval.length ≤ 12 then
      some ((digitsToNat sval : ℚ))
    else
      match v with
      | .vint n =>
        some (if n > 10000000000 then Rat.ofInt n / 1000 else Rat.ofInt n)
      | .vstr s => w.dtparse s

/-- `get_item_time` (lines 150–156): first field among
`published, updated, crawled, timestampUsec, crawlTimeMsec` that `as_dt`
parses. -/
def get_item_time (w : World) (it : Item) : Option ℚ :=
  as_dt w it.published <|> as_dt w it.updated <|> as_dt w it.crawled <|>
    as_dt w it.timestampUsec <|> as_dt w it.crawlTimeMsec

/-- First element's `href` of a `canonical`/`alternate` array, if truthy
(lines 159–164: a falsy `href` falls through to the next key). -/
def hrefOf (arr : List (Option Str)) : Option Str :=
  match arr with
  | [] => none
  | h :: _ => tstr h

/-- The `for key in ("originId", "id", "url")` loop of `choose_best_url`:
first present field that is a string starting with `"http"`. -/
def firstHttp : List (Option Str) → Option Str
  | [] => none
  | v? :: rest =>
    match v? with
    | some v => if strStarts (S "http") v then some v else firstHttp rest
    | none => firstHttp rest

/-- `choose_best_url` (lines 158–169). -/
def choose_best_url (it : Item) : Option Str :=
  match hrefOf it.canonical with
  | some h => some h
  | none =>
    match hrefOf it.alternate with
    | some h => some h
    | none => firstHttp [it.originId, it.id, it.url]

/-! ## slugify and draft filenames -/

/-- ASCII apostrophe (kept out of literals). -/
def apos : Char := Char.ofNat 39

/-- Partial model of Python `html.unescape` covering the five predefined XML
entities; `html.unescape` additionally knows the full HTML5 named-entity
table, but every input considered in this development is entity-free, on
which both are the identity. -/
def html_unescape : Str → Str
  | '&' :: 'a' :: 'm' :: 'p' :: ';' :: rest => '&' :: html_unescape rest
  | '&' :: 'l' :: 't' :: ';' :: rest => '<' :: html_unescape rest
  | '&' :: 'g' :: 't' :: ';' :: rest => '>' :: html_unescape rest
  | '&' :: 'q' :: 'u' :: 'o' :: 't' :: ';' :: rest => '"' :: html_unescape rest
  | '&' :: '#' :: '3' :: '9' :: ';' :: rest => apos :: html_unescape rest
  | c :: rest => c :: html_unescape rest
  | [] => []

/-- The characters removed by `re.sub(r"[’'“”]", "", text)` (line 74). -/
def isQuoteChar (c : Char) : Bool := c = '’' || c = apos || c = '“' || c = '”'

/-- Membership in the class `[a-z0-9]` (line 75). -/
def isLowerAlnum (c : Char) : Bool :=
  (97 ≤ c.toNat && c.toNat ≤ 122) || (48 ≤ c.toNat && c.toNat ≤ 57)

/-- `re.sub(r"[^a-z0-9]+", "-", text)`: each maximal run of characters
outside `[a-z0-9]` becomes a single `'-'`.  The flag records whether the
previous character already belonged to such a run. -/
def collapseAux : Bool → Str → Str
  | _, [] => []
  | inRun, c :: rest =>
    if isLowerAlnum c then c :: collapseAux false rest
    else if inRun then collapseAux true rest
    else '-' :: collapseAux true rest

/-- `slugify` before its final `or "post"` fallback (lines 73–76):
unescape, lower-case, strip, drop curly/straight quotes, collapse
non-`[a-z0-9]` runs to `-`, strip `-`, truncate, strip trailing `-`. -/
def slugify_core (text : Str) (max_len : ℕ) : Str :=
  let t := pyStrip ((html_unescape text).map Char.toLower)
  let t := t.filter (fun c => ¬ isQuoteChar c)
  let t := rstripChar '-' (lstripChar '-' (collapseAux false t))
  rstripChar '-' (t.take max_len)

/-- `slugify` (lines 72–76). -/
def slugify (text : Str) (max_len : ℕ := 80) : Str :=
  let t := slugify_core text max_len
  if t = [] then S "post" else t

/-- Proleptic-Gregorian civil date from days since the Unix epoch (the
arithmetic `datetime.date` performs for `fromtimestamp(..., tz=utc).date()`;
Howard Hinnant's `civil_from_days`, with floor division written directly via
`Int.ediv`, which for the positive divisors used here is exactly the floor
the C-style conditional emulates). -/
def civilFromDays (z0 : ℤ) : ℤ × ℤ × ℤ :=
  let z := z0 + 719468
  let era := Int.ediv z 146097
  let doe := z - era * 146097
  let yoe := Int.ediv (doe - Int.ediv doe 1460 + Int.ediv doe 36524 - Int.ediv doe 146096) 365
  let y := yoe + era * 400
  let doy := doe - (365 * yoe + Int.ediv yoe 4 - Int.ediv yoe 100)
  let mp := Int.ediv (5 * doy + 2) 153
  let d := doy - Int.ediv (153 * mp + 2) 5 + 1
  let m := mp + (if mp < 10 then 3 else -9)
  (y + (if m ≤ 2 then 1 else 0), m, d)

/-- Zero-padded decimal rendering of a nonnegative integer. -/
def padNum (width : ℕ) (n : ℤ) : Str :=
  let ds := natRepr n.toNat
  List.replicate (width - ds.length) '0' ++ ds

/-- `f"{date_local.date()}"`: the `YYYY-MM-DD` rendering of the civil date of
a UTC timestamp. -/
def dateYMD (ts : ℚ) : Str :=
  let (y, m, d) := civilFromDays ⌊ts / 86400⌋
  padNum 4 y ++ S "-" ++ padNum 2 m ++ S "-" ++ padNum 2 d

/-! ## sentence splitting and the extractive summarizer -/

/-- The regex literal of line 87,
`r"(?<=[.!?])\s+(?=[A-Z(\"\']))"`, character by character. -/
def sentenceSplitPattern : Str :=
  ['(', '?', '<', '=', '[', '.', '!', '?', ']', ')', '\\', 's', '+',
   '(', '?', '=', '[', 'A', '-', 'Z', '(', '\\', Char.ofNat 34, '\\', apos,
   ']', ')', ')']

/-- Group-parenthesis balance check for a regex pattern, as Python's
`re.compile` performs it: `\x` is an escape, parentheses inside a character
class `[...]` are literals, a closing parenthesis with no matching opening
one (or a missing closing one) makes compilation fail with
`re.error("unbalanced parenthesis")`.  Arguments: pattern rest, current open
group depth, whether we are inside a class. -/
def reParensOk : Str → ℕ → Bool → Bool
  | [], depth, _ => depth = 0
  | '\\' :: rest, depth, inClass =>
    match rest with
    | [] => depth = 0
    | _ :: rest2 => reParensOk rest2 depth inClass
  | '[' :: rest, depth, false => reParensOk rest depth true
  | ']' :: rest, depth, true => reParensOk rest depth false
  | '(' :: rest, depth, false => reParensOk rest (depth + 1) false
  | ')' :: rest, depth, false =>
    match depth with
    | 0 => false
    | d + 1 => reParensOk rest d false
  | _ :: rest, depth, inClass => reParensOk rest depth inClass

/-- `sentence_split` (lines 78–88) in an environment with a working NLTK
installation: strip, return `[]` on empty, else delegate to the external
`sent_tokenize`.  The in-repo regex fallback of line 87 never splits
anything: its pattern (`sentenceSplitPattern`) fails to compile — see the
claim-C7 theorem. -/
def sentence_split (w : World) (text : Str) : List Str :=
  let t := pyStrip text
  if t = [] then [] else w.sentTokenize t

/-- The accumulation loop of `summarize_extract` (lines 94–102): skip
sentences under 5 words, append, add the word count, break once the running
count reaches the target.  Returns the kept sentences and the final count. -/
def summAccum (target : ℕ) : List Str → ℕ → List Str × ℕ
  | [], count => ([], count)
  | s :: rest, count =>
    let n := wc s
    if n < 5 then summAccum target rest count
    else if target ≤ count + n then ([s], count + n)
    else
      let (out, c') := summAccum target rest (count + n)
      (s :: out, c')

/-- `summarize_extract` (lines 90–107). -/
def summarize_extract (w : World) (content : Str) (target_words : ℕ) : Str :=
  let sents := sentence_split w content
  if sents = [] then []
  else
    let (out, _) := summAccum target_words sents 0
    let joined := joinSpace out
    let words := pySplit joined
    if target_words + 60 < words.length then
      joinSpace (words.take (target_words + 60)) ++ S "…"
    else joined

/-! ## scoring, drafting, and the run -/

/-- `score_item` (lines 220–226).  Note the source's two quirks, kept: a
missing parse falls back to `now` (irrelevant for ranking candidates, which
always carry a parsed time), and the age is clamped at `0` for future-dated
items. -/
def score_item (w : World) (it : Item) : ℚ :=
  let published := (get_item_time w it).getD w.now
  let age_hours : ℚ := max 0 ((w.now - published) / 3600)
  let title := pyStrip ((tstr it.title).getD [])
  let title_len := wc title
  let length_bonus : ℚ := if 6 ≤ title_len ∧ title_len ≤ 14 then 1/2 else 0
  100 / (1 + age_hours) + length_bonus

/-- `fetch_html` (lines 171–179): a bounded-timeout GET whose every failure
(timeout, connection error, non-2xx via `raise_for_status`) is caught and
recovered into `None`. -/
def fetch_html (w : World) (url : Str) : Option Str := w.fetch url

/-- `extract_content` (lines 181–218): on missing or empty html every branch
is skipped and `(None, "")` returned; otherwise the external
trafilatura/readability/soup chain produces `(title?, text)`. -/
def extract_content (w : World) : Option Str → Option Str × Str
  | none => (none, [])
  | some h => if h = [] then (none, []) else w.extract h

/-- The run's configuration surface (read from `config.yaml`, lines
263–267). -/
structure Cfg where
  hours : ℤ := 6
  max_posts : ℕ := 3
  min_words : ℕ := 80
  dry : Bool := false
deriving DecidableEq

/-- `cutoff = now - timedelta(hours=hours)` (line 270). -/
def cutoff (w : World) (cfg : Cfg) : ℚ := w.now - Rat.ofInt cfg.hours * 3600

/-- `pid` derivation (lines 285–288): native id, else `originId`, else the
best URL (each under Python truthiness), else the sha1 hex digest of
`(title or "") + str(published or updated or "")`. -/
def pid_of (w : World) (it : Item) : Str :=
  match tstr it.id <|> tstr it.originId <|> tstr (choose_best_url it) with
  | some p => p
  | none =>
    let base := (tstr it.title).getD [] ++
      (match ftruthy it.published <|> ftruthy it.updated with
       | some v => fieldStr v
       | none => [])
    w.sha1hex base

/-- The persisted seen-set, loaded at run start: a Python `set` of strings,
modelled as a duplicate-free list with decidable membership. -/
abbrev SeenSet := List Str

/-- `seen.add(pid)`. -/
def seenAdd (seen : SeenSet) (pid : Str) : SeenSet :=
  if pid ∈ seen then seen else pid :: seen

/-- One selected candidate: the tuple `(pid, it, published, url)` appended at
line 304. -/
structure Cand where
  pid : Str
  item : Item
  pub : ℚ
  url : Str
deriving DecidableEq

/-- The candidate loop (lines 283–304): per item, in order — dedup skip on
`pid in seen`; freshness skip when no date parses or `published < cutoff`
(the seen-set untouched); no-resolvable-URL skip with `seen.add(pid)`; else
keep as a candidate.  `choose_best_url` never returns an empty string, so
the `if not url` test is its `none` case. -/
def phase1 (w : World) (cfg : Cfg) : List Item → SeenSet → SeenSet × List Cand
  | [], seen => (seen, [])
  | it :: rest, seen =>
    if pid_of w it ∈ seen then phase1 w cfg rest seen
    else
      match get_item_time w it with
      | none => phase1 w cfg rest seen
      | some published =>
        if published < cutoff w cfg then phase1 w cfg rest seen
        else
          match choose_best_url it with
          | none => phase1 w cfg rest (seenAdd seen (pid_of w it))
          | some url =>
            ((phase1 w cfg rest seen).1,
              ⟨pid_of w it, it, published, url⟩ :: (phase1 w cfg rest seen).2)

/-- Definitional unfolding of one step of the candidate loop. -/
theorem phase1_cons (w : World) (cfg : Cfg) (it : Item) (rest : List Item)
    (seen : SeenSet) :
    phase1 w cfg (it :: rest) seen =
      if pid_of w it ∈ seen then phase1 w cfg rest seen
      else
        match get_item_time w it with
        | none => phase1 w cfg rest seen
        | some published =>
          if published < cutoff w cfg then phase1 w cfg rest seen
          else
            match choose_best_url it with
            | none => phase1 w cfg rest (seenAdd seen (pid_of w it))
            | some url =>
              ((phase1 w cfg rest seen).1,
                ⟨pid_of w it, it, published, url⟩ :: (phase1 w cfg rest seen).2) := by
  rfl

/-- Tag a list with positions starting at `n` (the original feed order, used
to express the stability of Python's sort). -/
def withIdx (n : ℕ) : List α → List (ℕ × α)
  | [] => []
  | a :: as => (n, a) :: withIdx (n + 1) as

/-- Stable insertion of `a` in front of the first element it may precede. -/
def insertSorted (le : α → α → Bool) (a : α) : List α → List α
  | [] => [a]
  | b :: l => if le a b then a :: b :: l else b :: insertSorted le a l

/-- Insertion sort with respect to a boolean total preorder. -/
def sortBy (le : α → α → Bool) : List α → List α
  | [] => []
  | a :: l => insertSorted le a (sortBy le l)

/-- The order realised by `sorted(candidates, key=lambda t: score_item(t[1],
now), reverse=True)` on index-tagged candidates: higher score first, ties by
original position.  Under this linear order (indices are distinct) the
stable reverse sort's output is the unique sorted permutation, which
insertion sort also produces. -/
def rankLE (w : World) (a b : ℕ × Cand) : Bool :=
  decide (score_item w b.2.item < score_item w a.2.item) ||
    (decide (score_item w a.2.item = score_item w b.2.item) && decide (a.1 ≤ b.1))

/-- Line 310: rank the candidates and keep the top `max_posts`. -/
def rankedList (w : World) (cfg : Cfg) (cands : List Cand) : List Cand :=
  ((sortBy (rankLE w) (withIdx 0 cands)).map Prod.snd).take cfg.max_posts

/-- What `write_draft` (lines 231–253) leaves in `drafts/`: the file name,
the (front-matter) title it was called with, and the file body.
`front_matter`'s `yaml.safe_dump` and `date.isoformat()` are external
(`World.yamlDump` / `World.isoFormat`). -/
structure DraftRec where
  fname : Str
  title : Str
  body : Str
deriving DecidableEq

/-- `front_matter` (lines 228–229). -/
def front_matter (w : World) (fields : List (Str × Str)) : Str :=
  S "---\n" ++ w.yamlDump fields ++ S "---\n\n"

/-- `write_draft` (lines 231–253): filename
`f"{date_local.date()}-{slug}.md"` with `slug = slugify(title or
"article")`; returns `None` in dry-run mode (nothing written). -/
def write_draft (w : World) (title : Str) (date : ℚ) (url : Str)
    (summary_md : Str) (tags : List Str) (dry : Bool) : Option DraftRec :=
  let slug := slugify (if title = [] then S "article" else title)
  let fname := dateYMD date ++ S "-" ++ slug ++ S ".md"
  let fm := front_matter w
    [(S "layout", S "post"),
     (S "title", if title = [] then S "Untitled" else title),
     (S "date", w.isoFormat date),
     (S "draft", S "true"),
     (S "tags", joinSpace tags),
     (S "source", url),
     (S "canonical_url", url)]
  if dry then none
  else some { fname := fname, title := title, body := fm ++ pyStrip summary_md ++ S "\n" }

/-- The text the drafting loop ends up summarizing (lines 316–333): the
extracted page text, or — when that is under `min_words` — the stripped
bundled `content`/`summary` html of the feed entry, provided the latter
meets `min_words`. -/
def item_text (w : World) (cfg : Cfg) (c : Cand) : Str :=
  if wc (extract_content w (fetch_html w c.url)).2 < cfg.min_words then
    match tstr c.item.content <|> tstr c.item.summary with
    | some fallback_html =>
      if cfg.min_words ≤ wc (w.stripHtml fallback_html) then w.stripHtml fallback_html
      else (extract_content w (fetch_html w c.url)).2
    | none => (extract_content w (fetch_html w c.url)).2
  else (extract_content w (fetch_html w c.url)).2

/-- The draft's title (lines 314 and 342–343): the extracted page title when
it is truthy and at least 4 words long, else the stripped feed title. -/
def draft_title (w : World) (c : Cand) : Str :=
  match (extract_content w (fetch_html w c.url)).1 with
  | some t => if t ≠ [] ∧ 4 ≤ wc t then t else pyStrip ((tstr c.item.title).getD [])
  | none => pyStrip ((tstr c.item.title).getD [])

/-- The draft's markdown body (lines 345–352): the extractive summary — or,
when it is falsy or under `min_words`, the first `max(300, min_words + 40)`
words of the text — through `markdownify`, under the `*Summary of:*`
header. -/
def draft_summary_md (w : World) (cfg : Cfg) (c : Cand) : Str :=
  S "*Summary of:* [" ++ draft_title w c ++ S "](" ++ c.url ++ S ")\n\n" ++
    w.mdify (if summarize_extract w (item_text w cfg c) 300 = [] ∨
        wc (summarize_extract w (item_text w cfg c) 300) < cfg.min_words then
      joinSpace ((pySplit (item_text w cfg c)).take (max 300 (cfg.min_words + 40)))
    else summarize_extract w (item_text w cfg c) 300)

/-- The draft's tags (lines 355–358): the 24-character slug of the feed's
origin title, when truthy. -/
def draft_tags (c : Cand) : List Str :=
  match tstr c.item.origin with
  | some t => [slugify t 24]
  | none => []

/-- The body of the drafting loop (lines 313–364) for one ranked candidate:
fetch, extract, fall back to bundled feed content when the page text is
thin, give up (`None`) when still under `min_words` (line 335), else write
the draft from the chosen title and summary.  `None` means no file was
produced (quality skip, or dry run); in every case the caller adds `pid` to
the seen-set. -/
def process_item (w : World) (cfg : Cfg) (c : Cand) : Option DraftRec :=
  if item_text w cfg c = [] ∨ wc (item_text w cfg c) < cfg.min_words then none
  else
    write_draft w (draft_title w c) c.pub c.url (draft_summary_md w cfg c)
      (draft_tags c) cfg.dry

/-- The drafting loop (lines 312–364): every processed candidate — drafted
or skipped — ends with `seen.add(pid)`; the draft file name is appended to
`created` exactly when a file was written. -/
def phase3 (w : World) (cfg : Cfg) : List Cand → SeenSet → List Str → SeenSet × List Str
  | [], seen, created => (seen, created)
  | c :: rest, seen, created =>
    match process_item w cfg c with
    | none => phase3 w cfg rest (seenAdd seen c.pid) created
    | some d => phase3 w cfg rest (seenAdd seen c.pid) (created ++ [d.fname])

/-- Definitional unfolding of one step of the drafting loop. -/
theorem phase3_cons (w : World) (cfg : Cfg) (c : Cand) (rest : List Cand)
    (seen : SeenSet) (created : List Str) :
    phase3 w cfg (c :: rest) seen created =
      match process_item w cfg c with
      | none => phase3 w cfg rest (seenAdd seen c.pid) created
      | some d => phase3 w cfg rest (seenAdd seen c.pid) (created ++ [d.fname]) := by
  rfl

/-- Outcome of one `main()` run: the `created` list printed at line 372 and
the final seen-set, which `save_seen` persists at line 367 unless `dry`. -/
structure RunOut where
  created : List Str
  seen : SeenSet
deriving DecidableEq

/-- `main` (lines 257–373) as a function of the configuration, the external
world, the fetched feed items and the loaded seen-set.  Two runs "in
succession with an unchanged upstream feed" are two applications with the
same `World` (same clock and network) and the same `items`. -/
def run (w : World) (cfg : Cfg) (items : List Item) (seen0 : SeenSet) : RunOut :=
  { created :=
      (phase3 w cfg (rankedList w cfg (phase1 w cfg items seen0).2)
        (phase1 w cfg items seen0).1 []).2,
    seen :=
      (phase3 w cfg (rankedList w cfg (phase1 w cfg items seen0).2)
        (phase1 w cfg items seen0).1 []).1 }

/-! ## persisting the seen-set -/

/-- Code-point lexicographic order on strings (Python's `<` on `str`). -/
def lexLe : Str → Str → Bool
  | [], _ => true
  | _ :: _, [] => false
  | a :: as, b :: bs =>
    if a.toNat < b.toNat then true
    else if b.toNat < a.toNat then false
    else lexLe as bs

/-- `save_seen` (lines 68–70): `json.dumps(sorted(ids), ...)` — the set is
written as a sorted JSON array, in full.  The argument is a Python `set`;
`dedup` reflects its no-duplicates semantics for arbitrary list input. -/
def save_seen (ids : List Str) : List Str := sortBy lexLe ids.dedup

end AutoNews

namespace Workflow

open AutoNews

/-! ## The competing variant `.github/workflows/scripts/auto_news.py` -/

/-- One feedparser-style entry as read by the workflow variant:
`published_parsed` / `updated_parsed` carry the instant obtained via
`time.mktime` when the field is present (a `struct_time` is always truthy).
An absent `canonical` key is represented by `[none]` (the source's default
`[{}]`, whose first element has no `href`). -/
structure WEntry where
  published_parsed : Option ℚ := none
  updated_parsed : Option ℚ := none
  title : Option Str := none
  canonical : List (Option Str) := [none]
  link : Option Str := none
  id : Option Str := none
deriving DecidableEq

/-- `parse_time` (variant lines 41–47): first parsed date field, **defaulting
to `now_utc()` when no field parses**. -/
def parse_time (now : ℚ) (e : WEntry) : ℚ :=
  (e.published_parsed <|> e.updated_parsed).getD now

/-- `link = e.get("canonical",[{}])[0].get("href") or e.get("link") or ""`
(variant line 148).  The `IndexError` an explicitly empty `canonical` array
would raise is not modelled (no claim touches it). -/
def wlink (e : WEntry) : Str :=
  ((match e.canonical with
    | h :: _ => tstr h
    | [] => none) <|> tstr e.link).getD []

/-- One candidate tuple `(score, dt, title, link, uid)` (variant line 153). -/
structure WCand where
  score : ℚ
  dt : ℚ
  title : Str
  link : Str
  uid : Str
deriving DecidableEq

/-- The candidate loop of the variant's `main` (lines 142–153): freshness by
`parse_time` (with its `now` default), a minimum **character** length on the
title, dedup on `uid = id or link or title`, and the score
`(dt - cutoff).total_seconds() + len(title)*3`. -/
def candidates_loop (now cutoff : ℚ) (minTlen : ℕ) (seen : List Str) :
    List WEntry → List WCand
  | [] => []
  | e :: rest =>
    let dt := parse_time now e
    if dt < cutoff then candidates_loop now cutoff minTlen seen rest
    else
      let title := pyStrip (e.title.getD [])
      if title.length < minTlen then candidates_loop now cutoff minTlen seen rest
      else
        let link := wlink e
        let uid := (tstr e.id <|> tstr (some link) <|> tstr (some title)).getD []
        if uid ∈ seen then candidates_loop now cutoff minTlen seen rest
        else
          ⟨(dt - cutoff) + (title.length : ℚ) * 3, dt, title, link, uid⟩ ::
            candidates_loop now cutoff minTlen seen rest

/-- Descending lexicographic comparison of candidate tuples:
`candidates.sort(reverse=True)` on `(score, dt, title, link, uid)`. -/
def wTupleGE (a b : WCand) : Bool :=
  if a.score = b.score then
    if a.dt = b.dt then
      if a.title = b.title then
        if a.link = b.link then lexLe b.uid a.uid
        else lexLe b.link a.link
      else lexLe b.title a.title
    else decide (b.dt ≤ a.dt)
  else decide (b.score ≤ a.score)

/-- Variant lines 155–158: sort descending and process the first
`MAX_ART * 3` candidates (each becomes a draft unless its source texts all
fail, which is the network's choice, not the freshness gate's). -/
def selected (maxArt : ℕ) (cands : List WCand) : List WCand :=
  (sortBy wTupleGE cands).take (maxArt * 3)

/-- Variant line 190: `STATE.write_text(json.dumps(sorted(list(seen))[-2000:]))`
— the sorted array capped to its **last** 2000 entries, i.e. eviction of the
lexicographically smallest identifiers, not of the oldest-by-insertion. -/
def save_state (ids : List Str) : List Str :=
  let s := sortBy lexLe ids.dedup
  s.drop (s.length - 2000)

end Workflow

namespace AutoNews

/-! ## Generic facts about the stable sort and the index tagging -/

theorem insertSorted_perm (le : α → α → Bool) (a : α) :
    ∀ l : List α, List.Perm (insertSorted le a l) (a :: l)
  | [] => List.Perm.refl _
  | b :: l => by
    unfold insertSorted
    split
    · exact List.Perm.refl _
    · exact ((insertSorted_perm le a l).cons b).trans (List.Perm.swap a b l)

theorem sortBy_perm (le : α → α → Bool) : ∀ l : List α, List.Perm (sortBy le l) l
  | [] => List.Perm.refl _
  | a :: l =>
    (insertSorted_perm le a (sortBy le l)).trans ((sortBy_perm le l).cons a)

theorem mem_insertSorted (le : α → α → Bool) (a x : α) (l : List α) :
    x ∈ insertSorted le a l ↔ x = a ∨ x ∈ l := by
  rw [(insertSorted_perm le a l).mem_iff, List.mem_cons]

theorem insertSorted_pairwise {le : α → α → Bool}
    (htot : ∀ a b, le a b = true ∨ le b a = true)
    (htrans : ∀ a b c, le a b = true → le b c = true → le a c = true)
    (a : α) : ∀ {l : List α}, l.Pairwise (le · · = true) →
      (insertSorted le a l).Pairwise (le · · = true)
  | [], _ => List.pairwise_singleton _ a
  | b :: l, h => by
    unfold insertSorted
    split
    · refine List.Pairwise.cons ?_ h
      intro x hx
      rcases List.mem_cons.1 hx with rfl | hx
      · assumption
      · exact htrans a b x (by assumption) (List.rel_of_pairwise_cons h hx)
    · refine List.Pairwise.cons ?_ (insertSorted_pairwise htot htrans a h.tail)
      intro x hx
      rcases (mem_insertSorted le a x l).1 hx with rfl | hx
      · exact (htot x b).resolve_left (by assumption)
      · exact List.rel_of_pairwise_cons h hx

theorem sortBy_pairwise {le : α → α → Bool}
    (htot : ∀ a b, le a b = true ∨ le b a = true)
    (htrans : ∀ a b c, le a b = true → le b c = true → le a c = true) :
    ∀ l : List α, (sortBy le l).Pairwise (le · · = true)
  | [] => List.Pairwise.nil
  | a :: l => insertSorted_pairwise htot htrans a (sortBy_pairwise htot htrans l)

theorem withIdx_map_snd : ∀ (n : ℕ) (l : List α), (withIdx n l).map Prod.snd = l
  | _, [] => rfl
  | n, _ :: as => congrArg _ (withIdx_map_snd (n + 1) as)

theorem withIdx_fst_ge : ∀ (n : ℕ) (l : List α) (p : ℕ × α), p ∈ withIdx n l → n ≤ p.1
  | n, a :: as, p, hp => by
    rcases List.mem_cons.1 hp with rfl | hp
    · exact le_refl n
    · exact (Nat.le_succ n).trans (withIdx_fst_ge (n + 1) as p hp)

theorem withIdx_pairwise_fst :
    ∀ (n : ℕ) (l : List α), (withIdx n l).Pairwise (fun a b => a.1 < b.1)
  | _, [] => List.Pairwise.nil
  | n, a :: as => by
    refine List.Pairwise.cons ?_ (withIdx_pairwise_fst (n + 1) as)
    intro p hp
    exact Nat.lt_of_lt_of_le (Nat.lt_succ_self n) (withIdx_fst_ge (n + 1) as p hp)

theorem withIdx_length : ∀ (n : ℕ) (l : List α), (withIdx n l).length = l.length
  | _, [] => rfl
  | n, _ :: as => congrArg Nat.succ (withIdx_length (n + 1) as)

/-! ## Facts about the seen-set and the two pipeline phases -/

theorem subset_seenAdd (seen : SeenSet) (p : Str) : seen ⊆ seenAdd seen p := by
  unfold seenAdd
  split
  · exact fun _ h => h
  · exact fun q h => List.mem_cons_of_mem p h

theorem mem_seenAdd_self (seen : SeenSet) (p : Str) : p ∈ seenAdd seen p := by
  unfold seenAdd
  split
  · assumption
  · exact List.mem_cons_self p seen

/-- An item is never drafted or reconsidered once its pid is in the loaded
seen-set: it is skipped by the very first branch of the candidate loop. -/
theorem phase1_skip_seen (w : World) (cfg : Cfg) (it : Item) (rest : List Item)
    (seen : SeenSet) (h : pid_of w it ∈ seen) :
    phase1 w cfg (it :: rest) seen = phase1 w cfg rest seen := by
  rw [phase1_cons, if_pos h]

/-- The candidate loop only ever adds to the seen-set. -/
theorem phase1_seen_mono (w : World) (cfg : Cfg) :
    ∀ (items : List Item) (seen : SeenSet), seen ⊆ (phase1 w cfg items seen).1
  | [], _ => fun _ h => h
  | it :: rest, seen => by
    rw [phase1_cons]
    split
    · exact phase1_seen_mono w cfg rest seen
    · split
      · exact phase1_seen_mono w cfg rest seen
      · split
        · exact phase1_seen_mono w cfg rest seen
        · split
          · exact (subset_seenAdd seen _).trans (phase1_seen_mono w cfg rest _)
          · exact phase1_seen_mono w cfg rest seen

/-- Every candidate the loop keeps carries a successfully parsed publication
time that is not older than the cutoff, and its resolved URL. -/
theorem phase1_cand_inv (w : World) (cfg : Cfg) :
    ∀ (items : List Item) (seen : SeenSet) (c : Cand),
      c ∈ (phase1 w cfg items seen).2 →
      get_item_time w c.item = some c.pub ∧ ¬ c.pub < cutoff w cfg ∧
        choose_best_url c.item = some c.url
  | [], _, c, hc => absurd hc (List.not_mem_nil c)
  | it :: rest, seen, c, hc => by
    revert hc
    rw [phase1_cons]
    split
    · exact phase1_cand_inv w cfg rest seen c
    · split
      · exact phase1_cand_inv w cfg rest seen c
      · next published hgit =>
        split
        · exact phase1_cand_inv w cfg rest seen c
        · next hfresh =>
          split
          · exact phase1_cand_inv w cfg rest _ c
          · next url hurl =>
            intro hc
            rcases List.mem_cons.1 hc with rfl | hc
            · exact ⟨hgit, hfresh, hurl⟩
            · exact phase1_cand_inv w cfg rest seen c hc

/-- Freshness/date skip condition of the candidate loop: no field parses, or
the parsed time is strictly older than the cutoff. -/
def timeBad (w : World) (cfg : Cfg) (it : Item) : Prop :=
  match get_item_time w it with
  | none => True
  | some published => published < cutoff w cfg

instance (w : World) (cfg : Cfg) (it : Item) : Decidable (timeBad w cfg it) := by
  unfold timeBad
  split
  · exact inferInstance
  · exact inferInstance

/-- Where each processed item ends up: its pid in the final seen-set (dedup
skip, no-URL skip), or rejected by the date gate, or among the candidates. -/
theorem phase1_classify (w : World) (cfg : Cfg) :
    ∀ (items : List Item) (seen : SeenSet) (it : Item), it ∈ items →
      pid_of w it ∈ (phase1 w cfg items seen).1 ∨ timeBad w cfg it ∨
        (∃ c ∈ (phase1 w cfg items seen).2, c.pid = pid_of w it)
  | [], _, it, hit => absurd hit (List.not_mem_nil it)
  | it0 :: rest, seen, it, hit => by
    rw [phase1_cons]
    rcases List.mem_cons.1 hit with rfl | hit
    · split
      · next hseen => exact Or.inl (phase1_seen_mono w cfg rest seen hseen)
      · split
        · next hgit => exact Or.inr (Or.inl (by unfold timeBad; rw [hgit]; trivial))
        · next published hgit =>
          split
          · next hfresh =>
            exact Or.inr (Or.inl (by unfold timeBad; rw [hgit]; exact hfresh))
          · split
            · exact Or.inl (phase1_seen_mono w cfg rest _ (mem_seenAdd_self seen _))
            · next url hurl =>
              refine Or.inr (Or.inr ?_)
              refine ⟨⟨pid_of w it, it, published, url⟩, ?_, rfl⟩
              exact List.mem_cons_self _ _
    · split
      · exact phase1_classify w cfg rest seen it hit
      · split
        · exact phase1_classify w cfg rest seen it hit
        · split
          · exact phase1_classify w cfg rest seen it hit
          · split
            · exact phase1_classify w cfg rest _ it hit
            · rcases phase1_classify w cfg rest seen it hit with h | h | ⟨c, hc, hpid⟩
              · exact Or.inl h
              · exact Or.inr (Or.inl h)
              · exact Or.inr (Or.inr ⟨c, List.mem_cons_of_mem _ hc, hpid⟩)

/-- When every feed item is already seen or date-rejected, the candidate loop
is a no-op: nothing is added to the seen-set and no candidate survives. -/
theorem phase1_blocked (w : World) (cfg : Cfg) :
    ∀ (items : List Item) (seen S : SeenSet),
      (∀ it ∈ items, pid_of w it ∈ S ∨ timeBad w cfg it) → S ⊆ seen →
      phase1 w cfg items seen = (seen, [])
  | [], seen, S, _, _ => rfl
  | it :: rest, seen, S, hall, hsub => by
    have hrest : phase1 w cfg rest seen = (seen, []) :=
      phase1_blocked w cfg rest seen S
        (fun x hx => hall x (List.mem_cons_of_mem it hx)) hsub
    rw [phase1_cons]
    rcases hall it (List.mem_cons_self it rest) with hseen | hbad
    · rw [if_pos (hsub hseen)]
      exact hrest
    · split
      · exact hrest
      · unfold timeBad at hbad
        split
        · exact hrest
        · next published hgit =>
          rw [hgit] at hbad
          have hb : published < cutoff w cfg := hbad
          rw [if_pos hb]
          exact hrest

theorem phase3_seen_mono (w : World) (cfg : Cfg) :
    ∀ (rk : List Cand) (seen : SeenSet) (created : List Str),
      seen ⊆ (phase3 w cfg rk seen created).1
  | [], _, _ => fun _ h => h
  | c :: rest, seen, created => by
    rw [phase3_cons]
    split
    · exact (subset_seenAdd seen _).trans (phase3_seen_mono w cfg rest _ _)
    · exact (subset_seenAdd seen _).trans (phase3_seen_mono w cfg rest _ _)

/-- Every ranked candidate — whether it produced a draft or was skipped — has
its pid added to the seen-set by the drafting loop (lines 337 and 364). -/
theorem phase3_pid_mem (w : World) (cfg : Cfg) :
    ∀ (rk : List Cand) (seen : SeenSet) (created : List Str) (c : Cand),
      c ∈ rk → c.pid ∈ (phase3 w cfg rk seen created).1
  | [], _, _, c, hc => absurd hc (List.not_mem_nil c)
  | c0 :: rest, seen, created, c, hc => by
    rcases List.mem_cons.1 hc with rfl | hc
    · rw [phase3_cons]
      split
      · exact phase3_seen_mono w cfg rest _ _ (mem_seenAdd_self seen _)
      · exact phase3_seen_mono w cfg rest _ _ (mem_seenAdd_self seen _)
    · rw [phase3_cons]
      split
      · exact phase3_pid_mem w cfg rest _ _ c hc
      · exact phase3_pid_mem w cfg rest _ _ c hc

/-- The drafting loop appends at most one file name per ranked candidate. -/
theorem phase3_created_length (w : World) (cfg : Cfg) :
    ∀ (rk : List Cand) (seen : SeenSet) (created : List Str),
      (phase3 w cfg rk seen created).2.length ≤ created.length + rk.length
  | [], _, created => Nat.le_add_right created.length 0
  | c :: rest, seen, created => by
    rw [phase3_cons]
    split
    · calc (phase3 w cfg rest (seenAdd seen c.pid) created).2.length
          ≤ created.length + rest.length := phase3_created_length w cfg rest _ created
        _ ≤ created.length + (c :: rest).length := by
            exact Nat.add_le_add_left (Nat.le_succ rest.length) created.length
    · calc (phase3 w cfg rest (seenAdd seen c.pid) (created ++ [_])).2.length
          ≤ (created ++ [_]).length + rest.length := phase3_created_length w cfg rest _ _
        _ = created.length + (c :: rest).length := by
            simp [List.length_append, List.length_cons]
            omega

/-! ## The two total preorders used by the writers and the ranker -/

theorem lexLe_total : ∀ a b : Str, lexLe a b = true ∨ lexLe b a = true
  | [], _ => Or.inl rfl
  | _ :: _, [] => Or.inr rfl
  | a :: as, b :: bs => by
    unfold lexLe
    rcases Nat.lt_trichotomy a.toNat b.toNat with h | h | h
    · left
      rw [if_pos h]
    · rw [if_neg (by omega), if_neg (by omega), if_neg (by omega), if_neg (by omega)]
      exact lexLe_total as bs
    · right
      rw [if_pos h]

theorem lexLe_trans : ∀ a b c : Str, lexLe a b = true → lexLe b c = true →
    lexLe a c = true
  | [], _, _, _, _ => rfl
  | _ :: _, [], _, hab, _ => by simp [lexLe] at hab
  | _ :: _, _ :: _, [], _, hbc => by simp [lexLe] at hbc
  | a :: as, b :: bs, c :: cs, hab, hbc => by
    unfold lexLe at hab hbc ⊢
    rcases Nat.lt_trichotomy a.toNat b.toNat with h1 | h1 | h1 <;>
      rcases Nat.lt_trichotomy b.toNat c.toNat with h2 | h2 | h2
    all_goals first
      | (rw [if_pos (by omega)])
      | (rw [if_neg (by omega), if_neg (by omega)]
         rw [if_neg (by omega), if_neg (by omega)] at hab hbc
         exact lexLe_trans as bs cs hab hbc)
      | (exfalso
         rw [if_neg (by omega), if_pos (by omega)] at hab
         exact Bool.false_ne_true hab)
      | (exfalso
         rw [if_neg (by omega), if_pos (by omega)] at hbc
         exact Bool.false_ne_true hbc)

theorem rankLE_total (w : World) : ∀ a b : ℕ × Cand,
    rankLE w a b = true ∨ rankLE w b a = true := by
  intro a b
  unfold rankLE
  simp only [Bool.or_eq_true, Bool.and_eq_true, decide_eq_true_eq]
  rcases lt_trichotomy (score_item w a.2.item) (score_item w b.2.item) with h | h | h
  · exact Or.inr (Or.inl h)
  · rcases Nat.le_total a.1 b.1 with h2 | h2
    · exact Or.inl (Or.inr ⟨h, h2⟩)
    · exact Or.inr (Or.inr ⟨h.symm, h2⟩)
  · exact Or.inl (Or.inl h)

theorem rankLE_trans (w : World) : ∀ a b c : ℕ × Cand,
    rankLE w a b = true → rankLE w b c = true → rankLE w a c = true := by
  intro a b c hab hbc
  unfold rankLE at hab hbc ⊢
  simp only [Bool.or_eq_true, Bool.and_eq_true, decide_eq_true_eq] at hab hbc ⊢
  rcases hab with h1 | ⟨h1e, h1i⟩ <;> rcases hbc with h2 | ⟨h2e, h2i⟩
  · exact Or.inl (h2.trans h1)
  · exact Or.inl (h2e ▸ h1)
  · exact Or.inl (h1e ▸ h2)
  · exact Or.inr ⟨h1e.trans h2e, h1i.trans h2i⟩

/-- The ranked list is drawn from the candidate list. -/
theorem rankedList_mem (w : World) (cfg : Cfg) (cands : List Cand) (c : Cand)
    (hc : c ∈ rankedList w cfg cands) : c ∈ cands := by
  unfold rankedList at hc
  have h1 := List.mem_of_mem_take hc
  rcases List.mem_map.1 h1 with ⟨p, hp, rfl⟩
  have h2 := (sortBy_perm (rankLE w) (withIdx 0 cands)).mem_iff.1 hp
  have h3 : p.2 ∈ (withIdx 0 cands).map Prod.snd := List.mem_map_of_mem Prod.snd h2
  rwa [withIdx_map_snd] at h3

/-- Ranking an empty candidate list yields nothing. -/
theorem rankedList_nil (w : World) (cfg : Cfg) : rankedList w cfg [] = [] := by
  unfold rankedList
  simp [withIdx, sortBy]

/-- When the candidate list fits under the cap, ranking is a mere permutation:
every candidate appears in the ranked list. -/
theorem rankedList_all (w : World) (cfg : Cfg) (cands : List Cand)
    (hcap : cands.length ≤ cfg.max_posts) (c : Cand) (hc : c ∈ cands) :
    c ∈ rankedList w cfg cands := by
  unfold rankedList
  have hlen : ((sortBy (rankLE w) (withIdx 0 cands)).map Prod.snd).length =
      cands.length := by
    rw [List.length_map, (sortBy_perm (rankLE w) (withIdx 0 cands)).length_eq,
      withIdx_length]
  rw [List.take_of_length_le (hlen ▸ hcap)]
  have : c ∈ (withIdx 0 cands).map Prod.snd := by rwa [withIdx_map_snd]
  rcases List.mem_map.1 this with ⟨p, hp, rfl⟩
  exact List.mem_map_of_mem Prod.snd
    ((sortBy_perm (rankLE w) (withIdx 0 cands)).mem_iff.2 hp)

/-- The sorted, index-tagged candidate list is strictly ordered: higher score
first, equal scores in original feed order. -/
theorem sortRank_pairwise (w : World) (cands : List Cand) :
    (sortBy (rankLE w) (withIdx 0 cands)).Pairwise (fun a b =>
      score_item w b.2.item < score_item w a.2.item ∨
        (score_item w a.2.item = score_item w b.2.item ∧ a.1 < b.1)) := by
  have hle := sortBy_pairwise (rankLE_total w) (rankLE_trans w) (withIdx 0 cands)
  have hfst0 : (withIdx 0 cands).Pairwise (fun a b => a.1 < b.1) :=
    withIdx_pairwise_fst 0 cands
  have hnodup0 : ((withIdx 0 cands).map Prod.fst).Nodup :=
    List.pairwise_map.2 (hfst0.imp fun h => Nat.ne_of_lt h)
  have hperm : List.Perm ((sortBy (rankLE w) (withIdx 0 cands)).map Prod.fst)
      ((withIdx 0 cands).map Prod.fst) :=
    (sortBy_perm (rankLE w) (withIdx 0 cands)).map Prod.fst
  have hnodup : ((sortBy (rankLE w) (withIdx 0 cands)).map Prod.fst).Nodup :=
    hperm.nodup_iff.2 hnodup0
  have hne : (sortBy (rankLE w) (withIdx 0 cands)).Pairwise (fun a b => a.1 ≠ b.1) :=
    List.pairwise_map.1 hnodup
  refine (hle.and hne).imp ?_
  rintro a b ⟨hab, hneq⟩
  unfold rankLE at hab
  simp only [Bool.or_eq_true, Bool.and_eq_true, decide_eq_true_eq] at hab
  rcases hab with h | ⟨he, hi⟩
  · exact Or.inl h
  · exact Or.inr ⟨he, Nat.lt_of_le_of_ne hi hneq⟩

/-! ## Spec-side definitions (modelled from the spec's words, for the
refinement claims) -/

/-- Modelled from the spec (§4.4): the item's age in hours at ranking time
(clamped below at zero; an unparsed time counts as "now", which no ranked
candidate ever exercises — see the claim-C4 theorem). -/
def spec_age_hours (w : World) (it : Item) : ℚ :=
  max 0 ((w.now - (get_item_time w it).getD w.now) / 3600)

/-- Modelled from the spec (§4.4): the ideal title word-length band. -/
def spec_title_band (it : Item) : Prop :=
  6 ≤ wc (pyStrip ((tstr it.title).getD [])) ∧
    wc (pyStrip ((tstr it.title).getD [])) ≤ 14

instance (it : Item) : Decidable (spec_title_band it) := by
  unfold spec_title_band
  exact inferInstance

/-- Modelled from the spec (§4.4): `100 / (1 + ageHours)` plus a bonus of
exactly `0.5` for titles in the ideal band. -/
def spec_score (w : World) (it : Item) : ℚ :=
  100 / (1 + spec_age_hours w it) + (if spec_title_band it then 1/2 else 0)

/-! ## Concrete test fixtures

A small deterministic world: the clock reads `1000003600` (an hour after the
epoch second `1000000000`), every fetch succeeds, extraction always yields a
four-word page title and a five-word body. -/

def sampleWorld : World where
  now := 1000003600
  dtparse := fun _ => none
  sha1hex := fun _ => S "deadbeef"
  fetch := fun _ => some (S "<html>x</html>")
  extract := fun _ => (some (S "Extracted Page Title Words"),
    S "alpha beta gamma delta epsilon")
  stripHtml := fun s => s
  sentTokenize := fun s => [s]
  mdify := fun s => s
  yamlDump := fun _ => S "k: v\n"
  isoFormat := fun _ => S "iso"

/-- Same world, but every page fetch fails (timeout / 500 / refused). -/
def sampleWorldNoFetch : World := { sampleWorld with fetch := fun _ => none }

/-- A deliberately tight per-run cap of one draft. -/
def capOneCfg : Cfg := { hours := 6, max_posts := 1, min_words := 1, dry := false }

/-- The default-sized cap of three drafts. -/
def sampleCfg : Cfg := { hours := 6, max_posts := 3, min_words := 1, dry := false }

/-- A fresh, drafting-ready feed item. -/
def sampleItemA : Item :=
  { id := some (S "a"), url := some (S "http://e.com/1"),
    published := some (.vint 1000000000) }

/-- A second fresh item, identical in shape. -/
def sampleItemB : Item :=
  { id := some (S "b"), url := some (S "http://e.com/2"),
    published := some (.vint 1000000000) }

/-- The candidate tuple the loop builds for `sampleItemA`. -/
def sampleCandA : Cand := ⟨S "a", sampleItemA, 1000000000, S "http://e.com/1"⟩

/-- The draft `process_item` writes for `sampleCandA` in `sampleWorld`. -/
def sampleDraft : DraftRec :=
  { fname := S "2001-09-09-extracted-page-title-words.md",
    title := S "Extracted Page Title Words",
    body := S "---\nk: v\n---\n\n*Summary of:* [Extracted Page Title Words](http://e.com/1)\n\nalpha beta gamma delta epsilon\n" }

/-- An item none of whose date fields parse. -/
def undatedItem : Item := { id := some (S "nd"), url := some (S "http://e.com/n") }

/-- An item older than the six-hour window (published about 29 hours before
`sampleWorld.now`). -/
def staleItem : Item :=
  { id := some (S "st"), url := some (S "http://e.com/s"),
    published := some (.vint 999900000) }

/-- A fresh item with no resolvable URL. -/
def noUrlItem : Item := { id := some (S "nu"), published := some (.vint 1000000000) }

/-- A workflow-variant entry with a long title and no parseable date field. -/
def undatedEntry : Workflow.WEntry :=
  { title := some (S "Senate Passes New Export Control Measures"),
    id := some (S "x") }

/-- 2001 pairwise-distinct identifiers. -/
def manyIds : List Str := (List.range 2001).map fun n => List.replicate n 'a'

/-- Persisting and reloading the seen-set preserves membership: every id is
in `save_seen`'s sorted output. -/
theorem subset_save_seen (ids : List Str) : ids ⊆ save_seen ids := fun _ hp =>
  (sortBy_perm lexLe ids.dedup).mem_iff.2 (List.mem_dedup.2 hp)

/-! ## Claim theorems -/

/-- **C5.** Ranker correctness: every item's score is exactly
`100 / (1 + ageHours)` plus a bonus of exactly `0.5` when the title's
whitespace-delimited word count lies in the ideal band (6–14 words) and `0`
otherwise; the ranked list is a permutation of the candidates ordered by
strictly descending score with ties broken by original feed position (the
stable reverse sort), of which the top `max_posts` are kept — a deterministic
total order of the input (the ranking is a pure function). -/
theorem claim_C5_ranker (w : World) (cfg : Cfg) (cands : List Cand) :
    (∀ it : Item, score_item w it = spec_score w it) ∧
    List.Perm ((sortBy (rankLE w) (withIdx 0 cands)).map Prod.snd) cands ∧
    (sortBy (rankLE w) (withIdx 0 cands)).Pairwise (fun a b =>
      score_item w b.2.item < score_item w a.2.item ∨
        (score_item w a.2.item = score_item w b.2.item ∧ a.1 < b.1)) ∧
    rankedList w cfg cands =
      ((sortBy (rankLE w) (withIdx 0 cands)).map Prod.snd).take cfg.max_posts := by
  refine ⟨fun it => rfl, ?_, sortRank_pairwise w cands, rfl⟩
  have h := (sortBy_perm (rankLE w) (withIdx 0 cands)).map Prod.snd
  rwa [withIdx_map_snd] at h

/-- **C6.** Per-run output cap: for every feed, configuration, world and
loaded seen-set, the run never creates more than `max_posts` drafts; the
trim of the ranked list to its first `max_posts` elements (`rankedList`) is
the bound through which this is enforced. -/
theorem claim_C6_cap (w : World) (cfg : Cfg) (items : List Item)
    (seen0 : SeenSet) (cands : List Cand) :
    (run w cfg items seen0).created.length ≤ cfg.max_posts ∧
    (rankedList w cfg cands).length ≤ cfg.max_posts := by
  have hrk : ∀ cs : List Cand, (rankedList w cfg cs).length ≤ cfg.max_posts := by
    intro cs
    unfold rankedList
    rw [List.length_take]
    exact Nat.min_le_left _ _
  refine ⟨?_, hrk cands⟩
  have h := phase3_created_length w cfg
    (rankedList w cfg (phase1 w cfg items seen0).2) (phase1 w cfg items seen0).1 []
  simp only [List.length_nil, Nat.zero_add] at h
  exact le_trans h (hrk _)

/-- **C7.** The in-repo sentence splitter cannot run: the regex literal of
line 87 (`sentenceSplitPattern`) has one closing parenthesis too many, so
Python's `re.split` raises `re.error("unbalanced parenthesis")` on every
call of the fallback path instead of splitting the text into sentences —
dropping that stray final parenthesis yields a well-formed pattern. -/
theorem claim_C7_regex_unbalanced :
    reParensOk sentenceSplitPattern 0 false = false ∧
    reParensOk sentenceSplitPattern.dropLast 0 false = true := by
  decide

/-- **C8 (counterexample).** `slugify` does not strip diacritics (it folds
`é` into the separator run: `"café" ↦ "caf"`, not `"cafe"`), and a title
whose slug would be empty falls back to the fixed string `"post"` — two
different such titles collide — not to a hash of the title. -/
theorem claim_C8_counterexample :
    slugify (S "€") 80 = S "post" ∧ slugify (S "☃") 80 = S "post" ∧
    slugify (S "café") 80 = S "caf" := by
  decide

/-- **C8 (amended).** Filename derivation and stability: the draft filename
is exactly `{YYYY-MM-DD}-{slug(title or "article")}.md`, where `slugify`
lower-cases, collapses non-`[a-z0-9]` runs (diacritics included) into single
`-` separators, truncates to 80 characters, and falls back to the constant
slug `"post"` when the slug would be empty; the filename depends only on the
title and the date, so re-processing the same logical item yields the same
filename. -/
theorem claim_C8_amended (w w' : World) (title : Str) (pub : ℚ)
    (url url' summary summary' : Str) (tags tags' : List Str) :
    (write_draft w title pub url summary tags false).map DraftRec.fname =
      some (dateYMD pub ++ S "-" ++
        slugify (if title = [] then S "article" else title) 80 ++ S ".md") ∧
    (write_draft w title pub url summary tags false).map DraftRec.fname =
      (write_draft w' title pub url' summary' tags' false).map DraftRec.fname ∧
    (∀ t m, slugify t m =
      if slugify_core t m = [] then S "post" else slugify_core t m) :=
  ⟨rfl, rfl, fun _ _ => rfl⟩

/-- **C9 (counterexample).** `save_seen` (the writer of the main pipeline,
lines 68–70) caps nothing: persisting 2001 distinct identifiers writes all
2001 of them, exceeding the claimed bound of 2000. -/
theorem claim_C9_counterexample : 2000 < (save_seen manyIds).length := by
  have hinj : Function.Injective fun n : ℕ => (List.replicate n 'a' : Str) := by
    intro m n h
    simpa using congrArg List.length h
  have hnodup : manyIds.Nodup := (List.nodup_range 2001).map hinj
  have hded : manyIds.dedup = manyIds := List.dedup_eq_self.2 hnodup
  unfold save_seen
  rw [hded, (sortBy_perm lexLe manyIds).length_eq]
  unfold manyIds
  rw [List.length_map, List.length_range]
  omega

/-- **C9 (amended).** `save_seen` emits the seen-set as a lexicographically
sorted array of the distinct identifiers with **no** cap; the workflow
variant's writer is the one that caps, keeping the **last** 2000 entries of
the sorted array — i.e. it evicts the lexicographically smallest
identifiers, not the oldest-by-insertion (a Python `set` retains no
insertion order to evict by). -/
theorem claim_C9_amended (ids : List Str) :
    (save_seen ids).Pairwise (fun a b => lexLe a b = true) ∧
    List.Perm (save_seen ids) ids.dedup ∧
    Workflow.save_state ids =
      (save_seen ids).drop ((save_seen ids).length - 2000) ∧
    (Workflow.save_state ids).length ≤ 2000 ∧
    (Workflow.save_state ids).IsSuffix (save_seen ids) := by
  refine ⟨sortBy_pairwise lexLe_total lexLe_trans ids.dedup,
    sortBy_perm lexLe ids.dedup, rfl, ?_, ?_⟩
  · show ((save_seen ids).drop ((save_seen ids).length - 2000)).length ≤ 2000
    rw [List.length_drop]
    omega
  · exact List.drop_suffix _ _

set_option maxRecDepth 2000 in
/-- **C1 (counterexample).** With two eligible candidates and a cap of one,
the first run drafts only the top-ranked item; the runner-up is neither
drafted nor marked seen, so the second run — same feed, same clock, the
seen-set the first run persisted — drafts it: the second run's `created`
list is not empty. -/
theorem claim_C1_counterexample :
    (run sampleWorld capOneCfg [sampleItemA, sampleItemB]
        (run sampleWorld capOneCfg [sampleItemA, sampleItemB] []).seen).created ≠ [] := by
  with_unfolding_all decide

/-- **C1 (amended).** Idempotence across runs, as the code enforces it:
every ranked candidate of a run — drafted or skipped — has its pid in the
run's final (persisted) seen-set, and when the candidate list fits under the
`max_posts` cap (so that every candidate is ranked), a second run over the
unchanged feed with the persisted seen-set — chained directly or through the
sorted `save_seen` serialization — creates zero drafts; candidates beyond
the cap are the one exception, as the counterexample shows. -/
theorem claim_C1_amended (w : World) (cfg : Cfg) (items : List Item)
    (seen0 : SeenSet)
    (hcap : (phase1 w cfg items seen0).2.length ≤ cfg.max_posts) :
    (∀ c ∈ rankedList w cfg (phase1 w cfg items seen0).2,
        c.pid ∈ (run w cfg items seen0).seen) ∧
    (run w cfg items (run w cfg items seen0).seen).created = [] ∧
    (run w cfg items (save_seen (run w cfg items seen0).seen)).created = [] := by
  have hcls : ∀ it ∈ items,
      pid_of w it ∈ (run w cfg items seen0).seen ∨ timeBad w cfg it := by
    intro it hit
    rcases phase1_classify w cfg items seen0 it hit with h | h | ⟨c, hc, hpid⟩
    · exact Or.inl (phase3_seen_mono w cfg _ _ [] h)
    · exact Or.inr h
    · refine Or.inl ?_
      have hrk := rankedList_all w cfg _ hcap c hc
      have hmem := phase3_pid_mem w cfg _ (phase1 w cfg items seen0).1 [] c hrk
      exact hpid ▸ hmem
  have key : ∀ seen' : SeenSet, (run w cfg items seen0).seen ⊆ seen' →
      (run w cfg items seen').created = [] := by
    intro seen' hsub
    have h1 : phase1 w cfg items seen' = (seen', []) :=
      phase1_blocked w cfg items seen' _ hcls hsub
    show (phase3 w cfg (rankedList w cfg (phase1 w cfg items seen').2)
      (phase1 w cfg items seen').1 []).2 = []
    rw [h1]
    show (phase3 w cfg (rankedList w cfg []) seen' []).2 = []
    rw [rankedList_nil]
    rfl
  exact ⟨fun c hc => phase3_pid_mem w cfg _ (phase1 w cfg items seen0).1 [] c hc,
    key _ fun _ h => h, key _ (subset_save_seen _)⟩

set_option maxRecDepth 2000 in
/-- **C1 (witness).** Two candidates under the three-draft cap: the second
run over the unchanged feed and the persisted seen-set creates nothing. -/
theorem claim_C1_witness :
    (phase1 sampleWorld sampleCfg [sampleItemA, sampleItemB] []).2.length ≤
      sampleCfg.max_posts ∧
    (run sampleWorld sampleCfg [sampleItemA, sampleItemB]
        (run sampleWorld sampleCfg [sampleItemA, sampleItemB] []).seen).created = [] :=
  ⟨by with_unfolding_all decide,
   (claim_C1_amended sampleWorld sampleCfg [sampleItemA, sampleItemB] []
      (by with_unfolding_all decide)).2.1⟩

set_option maxRecDepth 2000 in
/-- **C2 (counterexample).** A fresh item whose fetch fails and which has no
bundled content: no draft is written, its pid **is** persisted in the
seen-set, and on the next run over the unchanged feed it is no longer a
candidate — it does not reappear. -/
theorem claim_C2_counterexample :
    (run sampleWorldNoFetch capOneCfg [sampleItemA] []).created = [] ∧
    (run sampleWorldNoFetch capOneCfg [sampleItemA] []).seen = [S "a"] ∧
    (phase1 sampleWorldNoFetch capOneCfg [sampleItemA]
        (run sampleWorldNoFetch capOneCfg [sampleItemA] []).seen).2 = [] := by
  with_unfolding_all decide

/-- **C2 (amended).** A failed fetch is recovered per item — `fetch_html`
returns `None` and extraction degrades to `(None, "")` rather than raising —
but the drafting loop then either drafts from the bundled feed content or
skips the item as too short, and **in both cases adds the item's id to the
seen-set**, so a fetch-failed (ranked) item never reappears as a candidate
on a later run with the persisted seen-set: the dedup-skip fires before any
drafting. -/
theorem claim_C2_amended (w : World) (cfg : Cfg) (c : Cand)
    (hf : w.fetch c.url = none) :
    extract_content w (fetch_html w c.url) = (none, []) ∧
    (tstr c.item.content = none → tstr c.item.summary = none →
      process_item w cfg c = none) ∧
    (∀ rk seen created, c ∈ rk → c.pid ∈ (phase3 w cfg rk seen created).1) ∧
    (∀ it items seen, pid_of w it ∈ seen →
        phase1 w cfg (it :: items) seen = phase1 w cfg items seen) := by
  have he : extract_content w (fetch_html w c.url) = (none, []) := by
    unfold fetch_html
    rw [hf]
    rfl
  refine ⟨he, ?_, fun rk seen created hc => phase3_pid_mem w cfg rk seen created c hc,
    fun it items seen h => phase1_skip_seen w cfg it items seen h⟩
  intro hcontent hsummary
  have htext : item_text w cfg c = [] := by
    unfold item_text
    rw [he, hcontent, hsummary]
    split
    · rfl
    · rfl
  unfold process_item
  rw [htext]
  rw [if_pos (Or.inl rfl)]

/-- **C2 (witness).** The failed fetch of the sample candidate is recovered
into an empty extraction. -/
theorem claim_C2_witness :
    sampleWorldNoFetch.fetch sampleCandA.url = none ∧
    extract_content sampleWorldNoFetch (fetch_html sampleWorldNoFetch sampleCandA.url) =
      (none, []) ∧
    process_item sampleWorldNoFetch capOneCfg sampleCandA = none :=
  ⟨rfl, (claim_C2_amended sampleWorldNoFetch capOneCfg sampleCandA rfl).1,
   (claim_C2_amended sampleWorldNoFetch capOneCfg sampleCandA rfl).2.1 rfl rfl⟩

set_option maxRecDepth 2000 in
/-- **C3 (counterexample).** An item with no parseable date, and an item
with a date older than the window, are skipped **without** being marked
seen (the run's final seen-set stays empty); only the no-resolvable-URL
item is marked. -/
theorem claim_C3_counterexample :
    (run sampleWorld capOneCfg [undatedItem] []).seen = [] ∧
    (run sampleWorld capOneCfg [staleItem] []).seen = [] ∧
    (run sampleWorld capOneCfg [noUrlItem] []).seen = [S "nu"] := by
  with_unfolding_all decide

/-- **C3 (amended).** Of the three permanent-ineligibility cases the claim
lists, only the no-resolvable-URL case adds the item's id to the seen-set
(the candidate loop then proceeds with the enlarged set); an item with no
parseable date or with a stale date is skipped with the seen-set untouched,
so such items are reconsidered (and re-rejected) on every later run. -/
theorem claim_C3_amended (w : World) (cfg : Cfg) (it : Item)
    (rest : List Item) (seen : SeenSet) :
    (∀ p : ℚ, pid_of w it ∉ seen → get_item_time w it = some p →
      ¬ p < cutoff w cfg → choose_best_url it = none →
      phase1 w cfg (it :: rest) seen =
        phase1 w cfg rest (seenAdd seen (pid_of w it)) ∧
      pid_of w it ∈ (phase1 w cfg (it :: rest) seen).1) ∧
    (timeBad w cfg it →
      phase1 w cfg (it :: rest) seen = phase1 w cfg rest seen) := by
  constructor
  · intro p hseen hgit hfresh hurl
    have heq : phase1 w cfg (it :: rest) seen =
        phase1 w cfg rest (seenAdd seen (pid_of w it)) := by
      rw [phase1_cons, if_neg hseen, hgit]
      show (if p < cutoff w cfg then phase1 w cfg rest seen
        else match choose_best_url it with
          | none => phase1 w cfg rest (seenAdd seen (pid_of w it))
          | some url =>
            ((phase1 w cfg rest seen).1,
              ⟨pid_of w it, it, p, url⟩ :: (phase1 w cfg rest seen).2)) = _
      rw [if_neg hfresh, hurl]
    refine ⟨heq, ?_⟩
    rw [heq]
    exact phase1_seen_mono w cfg rest _ (mem_seenAdd_self seen _)
  · intro hbad
    by_cases hseen : pid_of w it ∈ seen
    · exact phase1_skip_seen w cfg it rest seen hseen
    · rw [phase1_cons, if_neg hseen]
      unfold timeBad at hbad
      split
      · rfl
      · next published hgit =>
        rw [hgit] at hbad
        have hb : published < cutoff w cfg := hbad
        rw [if_pos hb]

set_option maxRecDepth 2000 in
/-- **C3 (witness).** The amended statement applied to the concrete no-URL
item (marked seen) and the concrete undated item (skipped, not marked). -/
theorem claim_C3_witness :
    (phase1 sampleWorld capOneCfg [noUrlItem] [] =
        phase1 sampleWorld capOneCfg []
          (seenAdd [] (pid_of sampleWorld noUrlItem)) ∧
      pid_of sampleWorld noUrlItem ∈
        (phase1 sampleWorld capOneCfg [noUrlItem] []).1) ∧
    phase1 sampleWorld capOneCfg [undatedItem] [] =
      phase1 sampleWorld capOneCfg [] [] :=
  ⟨(claim_C3_amended sampleWorld capOneCfg noUrlItem [] []).1 1000000000
      (List.not_mem_nil _) (by with_unfolding_all rfl)
      (by with_unfolding_all decide) (by with_unfolding_all rfl),
   (claim_C3_amended sampleWorld capOneCfg undatedItem [] []).2
      (by with_unfolding_all decide)⟩

set_option maxRecDepth 2000 in
/-- **C4 (counterexample).** In the workflow variant, an entry none of whose
date fields parse has its timestamp defaulted to the current time by
`parse_time`, sails through the freshness gate with that fabricated
freshness, and is selected for processing. -/
theorem claim_C4_counterexample :
    undatedEntry.published_parsed = none ∧ undatedEntry.updated_parsed = none ∧
    Workflow.parse_time 1000003600 undatedEntry = 1000003600 ∧
    (Workflow.selected 3 (Workflow.candidates_loop 1000003600 (1000003600 - 21600)
        40 [] [undatedEntry])).map Workflow.WCand.dt = [1000003600] :=
  ⟨rfl, rfl, by with_unfolding_all rfl, by with_unfolding_all rfl⟩

/-- **C4 (amended).** In the main pipeline the freshness invariant holds:
every candidate selected for drafting carries a successfully parsed
publication time satisfying `now − publishedAt ≤ window`, and its timestamp
is never defaulted; it is the workflow variant that defaults unparseable
dates to `now` and can select such items (see the counterexample). -/
theorem claim_C4_amended (w : World) (cfg : Cfg) (items : List Item)
    (seen0 : SeenSet) (c : Cand)
    (hc : c ∈ rankedList w cfg (phase1 w cfg items seen0).2) :
    get_item_time w c.item = some c.pub ∧
    w.now - c.pub ≤ (cfg.hours : ℚ) * 3600 := by
  have h := phase1_cand_inv w cfg items seen0 c (rankedList_mem w cfg _ c hc)
  refine ⟨h.1, ?_⟩
  have h2 := h.2.1
  unfold cutoff at h2
  rw [Rat.ofInt_eq_cast] at h2
  linarith [not_lt.1 h2]

set_option maxRecDepth 2000 in
/-- **C4 (witness).** The sample candidate is ranked, its time parsed, and
it is one hour old — inside the six-hour window. -/
theorem claim_C4_witness :
    sampleCandA ∈ rankedList sampleWorld sampleCfg
      (phase1 sampleWorld sampleCfg [sampleItemA] []).2 ∧
    (get_item_time sampleWorld sampleCandA.item = some sampleCandA.pub ∧
      sampleWorld.now - sampleCandA.pub ≤ (sampleCfg.hours : ℚ) * 3600) := by
  have hrk : rankedList sampleWorld sampleCfg
      (phase1 sampleWorld sampleCfg [sampleItemA] []).2 = [sampleCandA] := by
    with_unfolding_all rfl
  have hc : sampleCandA ∈ rankedList sampleWorld sampleCfg
      (phase1 sampleWorld sampleCfg [sampleItemA] []).2 := by
    rw [hrk]
    exact List.mem_singleton_self _
  exact ⟨hc, claim_C4_amended sampleWorld sampleCfg [sampleItemA] [] sampleCandA hc⟩

/-- A successful `write_draft` call records the title it was given, and a
filename built from the date and the slug of that title. -/
theorem write_draft_some (w : World) (title : Str) (date : ℚ) (url : Str)
    (summary_md : Str) (tags : List Str) (dry : Bool) (d : DraftRec)
    (h : write_draft w title date url summary_md tags dry = some d) :
    d.title = title ∧
    d.fname = dateYMD date ++ S "-" ++
      slugify (if title = [] then S "article" else title) 80 ++ S ".md" := by
  unfold write_draft at h
  cases dry
  · injection h with h'
    subst h'
    exact ⟨rfl, rfl⟩
  · exact Option.noConfusion h

/-- **C10.** Title override: whenever the drafting loop produces a draft,
its title is the extracted page title exactly when that title is truthy and
has at least 4 whitespace-delimited words, and the (stripped) feed title
otherwise; the filename's slug component is computed from that same chosen
title. -/
theorem claim_C10_title_override (w : World) (cfg : Cfg) (c : Cand)
    (d : DraftRec) (h : process_item w cfg c = some d) :
    d.title = (match (extract_content w (fetch_html w c.url)).1 with
      | some t => if t ≠ [] ∧ 4 ≤ wc t then t
          else pyStrip ((tstr c.item.title).getD [])
      | none => pyStrip ((tstr c.item.title).getD [])) ∧
    d.fname = dateYMD c.pub ++ S "-" ++
      slugify (if d.title = [] then S "article" else d.title) 80 ++ S ".md" := by
  unfold process_item at h
  split at h
  · exact Option.noConfusion h
  · have hw := write_draft_some w (draft_title w c) c.pub c.url
      (draft_summary_md w cfg c) (draft_tags c) cfg.dry d h
    refine ⟨?_, ?_⟩
    · rw [hw.1]
      rfl
    · rw [hw.2, hw.1]

set_option maxRecDepth 2000 in
/-- **C10 (witness).** The sample candidate's page yields the four-word
title `"Extracted Page Title Words"`; the draft uses it, and the filename's
slug is derived from it. -/
theorem claim_C10_witness :
    process_item sampleWorld capOneCfg sampleCandA = some sampleDraft ∧
    (sampleDraft.title =
      (match (extract_content sampleWorld
          (fetch_html sampleWorld sampleCandA.url)).1 with
        | some t => if t ≠ [] ∧ 4 ≤ wc t then t
            else pyStrip ((tstr sampleCandA.item.title).getD [])
        | none => pyStrip ((tstr sampleCandA.item.title).getD [])) ∧
     sampleDraft.fname = dateYMD sampleCandA.pub ++ S "-" ++
       slugify (if sampleDraft.title = [] then S "article" else sampleDraft.title)
         80 ++ S ".md") := by
  have h : process_item sampleWorld capOneCfg sampleCandA = some sampleDraft := by
    with_unfolding_all decide
  exact ⟨h, claim_C10_title_override sampleWorld capOneCfg sampleCandA sampleDraft h⟩

end AutoNews
